import Mathlib

/-!
Shallow embedding of `src/lib/matrix.mjs` (the `Matrix` class).

Modelling decisions:
* JavaScript numbers stored in the `Float32Array` are idealized as exact
  rationals.  `NaN` — which arises in the source whenever an out-of-range
  array slot (JS `undefined`) enters arithmetic — is tracked explicitly by
  the element type `JSNum`.  Arithmetic on `JSNum` propagates `nan` exactly
  as JS arithmetic propagates `NaN`, and strict equality (`===`/`!==`)
  is `steq`, on which `nan` is unequal to everything, itself included.
* The three `throw` sites of the source are modelled with
  `Except MErr`: the constructor's two value-count messages are the
  `dimensionMismatch` kind, `determinant`'s non-square throw is
  `notSquare`, and `inverse`'s zero-determinant throw is `notInvertible`.
* A constructed `Matrix` always satisfies `values.length = ySize * xSize`
  (the constructor throws otherwise), so that fact is carried as a field.
-/

namespace MatrixJS

/-- A JavaScript number as it matters to this library: either an exact
rational or `NaN` (the value every out-of-range read produces once it
meets arithmetic). -/
inductive JSNum where
  | num (q : ℚ)
  | nan
deriving DecidableEq

namespace JSNum

/-- JS `+` : any `NaN` operand poisons the result. -/
def add : JSNum → JSNum → JSNum
  | num a, num b => num (a + b)
  | _, _ => nan

/-- JS `*` : any `NaN` operand poisons the result. -/
def mul : JSNum → JSNum → JSNum
  | num a, num b => num (a * b)
  | _, _ => nan

/-- JS `-` : any `NaN` operand poisons the result. -/
def sub : JSNum → JSNum → JSNum
  | num a, num b => num (a - b)
  | _, _ => nan

/-- JS `/` restricted to how the library uses it: `inverse` divides by a
determinant it has already checked to be `!== 0`, so the division-by-zero
branch (JS would give `±Infinity` or `NaN`, never a finite number) is
collapsed to `nan`; it is unreachable in the library. -/
def div : JSNum → JSNum → JSNum
  | num a, num b => if b = 0 then nan else num (a / b)
  | _, _ => nan

instance : Add JSNum := ⟨add⟩
instance : Mul JSNum := ⟨mul⟩
instance : Sub JSNum := ⟨sub⟩
instance : Div JSNum := ⟨div⟩

/-- JS strict equality `===` on numbers: `NaN === x` is always false. -/
def steq : JSNum → JSNum → Bool
  | num a, num b => decide (a = b)
  | _, _ => false

/-- `Math.pow(-1, x)` for a loop index `x`, which JS computes exactly. -/
def powNegOne (x : ℕ) : JSNum := num ((-1 : ℚ) ^ x)

@[simp] theorem num_add_num (a b : ℚ) : (num a) + (num b) = num (a + b) := rfl
@[simp] theorem nan_add (x : JSNum) : nan + x = nan := rfl
@[simp] theorem add_nan (x : JSNum) : x + nan = nan := by cases x <;> rfl
@[simp] theorem num_mul_num (a b : ℚ) : (num a) * (num b) = num (a * b) := rfl
@[simp] theorem nan_mul (x : JSNum) : nan * x = nan := rfl
@[simp] theorem mul_nan (x : JSNum) : x * nan = nan := by cases x <;> rfl
@[simp] theorem num_sub_num (a b : ℚ) : (num a) - (num b) = num (a - b) := rfl
@[simp] theorem num_div_num (a b : ℚ) :
    (num a) / (num b) = if b = 0 then nan else num (a / b) := rfl
@[simp] theorem steq_num_num (a b : ℚ) : steq (num a) (num b) = decide (a = b) := rfl
@[simp] theorem steq_nan_left (x : JSNum) : steq nan x = false := rfl
@[simp] theorem steq_nan_right (x : JSNum) : steq x nan = false := by cases x <;> rfl
@[simp] theorem powNegOne_def (x : ℕ) : powNegOne x = num ((-1 : ℚ) ^ x) := rfl

end JSNum

/-- The error kinds of the library (`src/lib/matrix.mjs` throws generic
`Error`s; the spec groups them into these kinds):
`dimensionMismatch` = the constructor's 'does not have enough values' /
'has too many values'; `notSquare` = determinant's 'is not square and has
no determinant'; `notInvertible` = inverse's 'has no inverse matrix'. -/
inductive MErr where
  | dimensionMismatch
  | notSquare
  | notInvertible
deriving DecidableEq

instance {ε α : Type} [DecidableEq ε] [DecidableEq α] : DecidableEq (Except ε α) := fun a b =>
  match a, b with
  | .error e, .error f =>
    if h : e = f then .isTrue (by rw [h]) else .isFalse (by simp [h])
  | .ok x, .ok y =>
    if h : x = y then .isTrue (by rw [h]) else .isFalse (by simp [h])
  | .error _, .ok _ => .isFalse (by simp)
  | .ok _, .error _ => .isFalse (by simp)

/-- The `Matrix` class: `ySize` rows, `xSize` columns, row-major flat
`values`.  The constructor throws unless `values.length = ySize * xSize`,
so every live instance carries that invariant (`hval`). -/
structure Matrix where
  ySize : ℕ
  xSize : ℕ
  values : List JSNum
  hval : values.length = ySize * xSize

instance : DecidableEq Matrix := fun a b =>
  decidable_of_iff (a.ySize = b.ySize ∧ a.xSize = b.xSize ∧ a.values = b.values) (by
    constructor
    · rintro ⟨h1, h2, h3⟩
      cases a; cases b; simp_all
    · rintro rfl; exact ⟨rfl, rfl, rfl⟩)

/-- The class constructor `new Matrix(ySize, xSize, values)`: throws
(`dimensionMismatch`) when the value count is below or above
`ySize * xSize`, otherwise produces the instance. -/
def Matrix.construct (ySize xSize : ℕ) (values : List JSNum) : Except MErr Matrix :=
  if h1 : values.length < ySize * xSize then .error .dimensionMismatch
  else if h2 : values.length > ySize * xSize then .error .dimensionMismatch
  else .ok ⟨ySize, xSize, values, by omega⟩

/-- `get(y, x) = this.values[y * this.xSize + x]`.  The source does no
bounds check; an out-of-range read yields `undefined`, which behaves as
`NaN` in the arithmetic contexts where `get` is used — hence default
`nan`. -/
def Matrix.get (m : Matrix) (y x : ℕ) : JSNum :=
  m.values.getD (y * m.xSize + x) .nan

/-- `eq(b)`: false when dimensions differ, otherwise strict (`!==`)
element-wise comparison over the flat values. -/
def Matrix.eq (a b : Matrix) : Bool :=
  if a.xSize ≠ b.xSize ∨ a.ySize ≠ b.ySize then false
  else (List.range a.values.length).all
    (fun i => JSNum.steq (a.values.getD i .nan) (b.values.getD i .nan))

/-- `Matrix.identity(size)`: zero-filled `size × size` array with
`values[i * size + i] = 1`.  A flat index `i` is on the diagonal exactly
when `i % size = i / size`. -/
def Matrix.identity (size : ℕ) : Matrix :=
  ⟨size, size,
   (List.range (size * size)).map
     (fun i => if i % size = i / size then JSNum.num 1 else JSNum.num 0),
   by simp⟩

/-- `map(fn)`: element-wise map over the flat values, same shape. -/
def Matrix.map (m : Matrix) (f : JSNum → JSNum) : Matrix :=
  ⟨m.ySize, m.xSize, m.values.map f, by simp [m.hval]⟩

/-- `transpose()`: the source writes `result[y + x * ySize] =
values[y * xSize + x]` for all `y < ySize`, `x < xSize`.  Read-side this
says the result's flat slot `i` (with `y = i % ySize`, `x = i / ySize`)
holds `values[(i % ySize) * xSize + i / ySize]`; every slot is written,
and all reads are in range. -/
def Matrix.transpose : Matrix → Matrix
  | ⟨ySize, xSize, values, _⟩ =>
    ⟨xSize, ySize,
     (List.range (xSize * ySize)).map
       (fun i => values.getD ((i % ySize) * xSize + i / ySize) .nan),
     by simp⟩

/-- `rotate()`: for each source column `x` (ascending) the source pushes
`values[y * xSize + x]` for `y` from `ySize - 1` down to `0`.  The `i`-th
pushed value (with `x = i / ySize` and `ySize - 1 - i % ySize` the
descending row) is therefore
`values[(ySize - 1 - i % ySize) * xSize + i / ySize]`. -/
def Matrix.rotate : Matrix → Matrix
  | ⟨ySize, xSize, values, _⟩ =>
    ⟨xSize, ySize,
     (List.range (xSize * ySize)).map
       (fun i => values.getD ((ySize - 1 - i % ySize) * xSize + i / ySize) .nan),
     by simp⟩

/-- `minor(y, x)`: the nested loops enumerate `sourceix` over
`0, 1, …, ySize * xSize - 1` in order and keep `values[sourceix]` when
`sourceix % xSize ≠ x` and `sourceix / xSize ≠ y`; the result is passed
to the constructor as a `(ySize - 1) × (xSize - 1)` matrix, which throws
when the kept count does not match (e.g. for out-of-range `y`/`x`).
(For `ySize = 0` or `xSize = 0` the JS dimension arithmetic would go
negative; ℕ subtraction truncates instead, a corner no operation of the
library ever reaches since the loops below are empty there.) -/
def Matrix.minor : Matrix → ℕ → ℕ → Except MErr Matrix
  | ⟨ySize, xSize, values, _⟩, y, x =>
    Matrix.construct (ySize - 1) (xSize - 1)
      ((List.range (ySize * xSize)).filterMap
        (fun six =>
          if six % xSize ≠ x ∧ six / xSize ≠ y
          then some (values.getD six .nan) else none))

/-- The JS pattern 'loop, push `f i`, let a thrown error escape':
sequential mapping over `Except`, stopping at the first error. -/
def exMapM (f : α → Except MErr β) : List α → Except MErr (List β)
  | [] => .ok []
  | a :: l =>
    match f a with
    | .error e => .error e
    | .ok b =>
      match exMapM f l with
      | .error e => .error e
      | .ok bs => .ok (b :: bs)

/-- The JS pattern 'loop over a list accumulating, let a thrown error
escape': sequential fold over `Except`. -/
def exFoldl (f : JSNum → ℕ → Except MErr JSNum) : JSNum → List ℕ → Except MErr JSNum
  | acc, [] => .ok acc
  | acc, x :: l =>
    match f acc x with
    | .error e => .error e
    | .ok acc2 => exFoldl f acc2 l

/-- `minors()`: pushes `minor(y, x)` for `y` ascending, `x` ascending —
i.e. `minor(i / xSize, i % xSize)` for the flat index `i` running over
`0, …, ySize * xSize - 1`; a throw from any `minor` escapes. -/
def Matrix.minors (m : Matrix) : Except MErr (List Matrix) :=
  match m with
  | ⟨ySize, xSize, _, _⟩ =>
    exMapM (fun i => m.minor (i / xSize) (i % xSize))
      (List.range (ySize * xSize))

/-- The recursion of `determinant()`, with the row count as structural
fuel: each recursive call is on a minor, which has one row fewer, so the
fuel equals the row count at every reachable call (`determinant` below
starts it at `m.ySize`).  The body follows the source: throw `notSquare`
when `xSize ≠ ySize`; the `2 × 2` base case `ad - bc`; otherwise
`sum += values[x] * minor(0, x).determinant() * (-1) ^ x` over
`x < xSize` starting from `sum = 0`.  The fuel-`0` branch returns the
sum `0` of the loop, which at fuel `0` ranges over `x < 0` — on
reachable inputs the matrix there is `0 × 0`. -/
def detGo : ℕ → Matrix → Except MErr JSNum
  | k, m =>
    if m.xSize ≠ m.ySize then .error .notSquare
    else if m.xSize = 2 ∧ m.ySize = 2 then
      .ok (m.get 0 0 * m.get 1 1 - m.get 0 1 * m.get 1 0)
    else
      match k with
      | 0 => .ok (JSNum.num 0)
      | j + 1 =>
        exFoldl
          (fun sum x =>
            match m.minor 0 x with
            | .error e => .error e
            | .ok mm =>
              match detGo j mm with
              | .error e => .error e
              | .ok d => .ok (sum + m.values.getD x JSNum.nan * d * JSNum.powNegOne x))
          (JSNum.num 0) (List.range m.xSize)

/-- `determinant()`. -/
def Matrix.determinant (m : Matrix) : Except MErr JSNum := detGo m.ySize m

/-- `adjugate()`: `new Matrix(ySize, xSize, transpose().minors().map(
(minor, ix) => minor.determinant() * Math.pow(-1, ix)))`; a throw from
any determinant (or from the constructor) escapes. -/
def Matrix.adjugate (m : Matrix) : Except MErr Matrix :=
  match m.transpose.minors with
  | .error e => .error e
  | .ok ms =>
    match exMapM
      (fun p =>
        match p.2.determinant with
        | .error e => .error e
        | .ok d => .ok (d * JSNum.powNegOne p.1))
      ms.enum with
    | .error e => .error e
    | .ok vals => Matrix.construct m.ySize m.xSize vals

/-- `inverse()`: computes the determinant (propagating its throw), throws
`notInvertible` when it is strictly equal to `0`, and otherwise divides
every adjugate element by it. -/
def Matrix.inverse (m : Matrix) : Except MErr Matrix :=
  match m.determinant with
  | .error e => .error e
  | .ok d =>
    if JSNum.steq d (JSNum.num 0) then .error .notInvertible
    else
      match m.adjugate with
      | .error e => .error e
      | .ok adj => .ok (adj.map (fun x => x / d))

/-- The matrix-by-matrix branch of `multiply(multiplier)`: no dimension
check; the result array of length `ySize * multiplier.xSize` starts
zero-filled, and slot `x + y * multiplier.xSize` accumulates
`this.get(y, z) * multiplier.get(z, x)` for `z` ascending below
`this.xSize` (out-of-range `get`s feed `NaN` into the sums). -/
def Matrix.multiplyMat (a b : Matrix) : Matrix :=
  match a, b with
  | ⟨aySize, axSize, _, _⟩, ⟨_, bxSize, _, _⟩ =>
    ⟨aySize, bxSize,
     (List.range (aySize * bxSize)).map
       (fun i =>
         (List.range axSize).foldl
           (fun acc z => acc + a.get (i / bxSize) z * b.get z (i % bxSize))
           (JSNum.num 0)),
     by simp⟩

/-- The scalar branch of `multiply(multiplier)`: replaces the operand by
`Matrix.identity(this.xSize).map(x => x * multiplier)` and runs the same
product loop. -/
def Matrix.multiplyScalar (m : Matrix) (s : JSNum) : Matrix :=
  m.multiplyMat ((Matrix.identity m.xSize).map (fun x => x * s))

/-- `matrix(1, 2)(1, 2)` — first operand of the C1 counterexample. -/
def mA12 : Matrix := ⟨1, 2, [.num 1, .num 2], rfl⟩

/-- `matrix(1, 1)(3)` — second operand of the C1 counterexample; its row
count `1` differs from `mA12`'s column count `2`. -/
def mB11 : Matrix := ⟨1, 1, [.num 3], rfl⟩

/-- `matrix(2, 2)(1, 2, 3, 4)` — the C2 counterexample matrix (its true
determinant `1*4 - 2*3 = -2` is nonzero). -/
def m2x2 : Matrix := ⟨2, 2, [.num 1, .num 2, .num 3, .num 4], rfl⟩

/-- `matrix(1, 1)(5)` — the C3 counterexample matrix. -/
def m1x1 : Matrix := ⟨1, 1, [.num 5], rfl⟩

/-- `matrix(3, 3)(1, 5, 3, 2, 4, 7, 4, 6, 2)` — the spec's determinant
example (expected value 74). -/
def mDet74 : Matrix :=
  ⟨3, 3, [.num 1, .num 5, .num 3, .num 2, .num 4, .num 7, .num 4, .num 6, .num 2], rfl⟩

/-- `matrix(3, 3)(1, 2, 3, 0, 1, 4, 5, 6, 0)` — the spec's invertible
example (determinant 1). -/
def mInv33 : Matrix :=
  ⟨3, 3, [.num 1, .num 2, .num 3, .num 0, .num 1, .num 4, .num 5, .num 6, .num 0], rfl⟩

/-- `matrix(3, 2)(1, 2, 3, 4, 5, 6)` — the spec's rotate example input. -/
def m32 : Matrix := ⟨3, 2, [.num 1, .num 2, .num 3, .num 4, .num 5, .num 6], rfl⟩

/-- `matrix(2, 3)(5, 3, 1, 6, 4, 2)` — the spec's rotate example output. -/
def m23rot : Matrix := ⟨2, 3, [.num 5, .num 3, .num 1, .num 6, .num 4, .num 2], rfl⟩

/-- True exactly on non-`NaN` values. -/
def JSNum.isNum : JSNum → Bool
  | .num _ => true
  | .nan => false

/-- A matrix whose stored values are all numeric (no `NaN`) — the domain
on which the spec's numeric statements are meaningful. -/
def Matrix.allNum (m : Matrix) : Bool := m.values.all JSNum.isNum

/-- The `2 × 2` all-zero matrix (the value of `m2x2.adjugate`). -/
def adjZ2 : Matrix := ⟨2, 2, [.num 0, .num 0, .num 0, .num 0], rfl⟩

/-- Modelled from the spec: the cofactor expansion along the first row as
§4.4 words it — 'sum over x of `element(0,x) * minor(0,x).determinant()
* (−1)^x`' — written with `determinant` itself at the recursive position
(errors escaping as in the source).  Used to compare the source's
determinant recursion against the spec's sentence. -/
def Matrix.detSpecSum (m : Matrix) : Except MErr JSNum :=
  exFoldl
    (fun sum x =>
      match m.minor 0 x with
      | .error e => .error e
      | .ok mm =>
        match mm.determinant with
        | .error e => .error e
        | .ok d => .ok (sum + m.values.getD x JSNum.nan * d * JSNum.powNegOne x))
    (JSNum.num 0) (List.range m.xSize)

/- ------------------------------------------------------------------ -/
/- Helper lemmas.                                                      -/
/- ------------------------------------------------------------------ -/

theorem Matrix.eq_of_parts (a b : Matrix) (h1 : a.ySize = b.ySize)
    (h2 : a.xSize = b.xSize) (h3 : a.values = b.values) : a = b := by
  cases a; cases b; simp_all

theorem Matrix.construct_eq_ok {r c : ℕ} {vs : List JSNum} (h : vs.length = r * c) :
    Matrix.construct r c vs = .ok ⟨r, c, vs, h⟩ := by
  simp [Matrix.construct, h]

theorem Matrix.construct_ok_parts {r c : ℕ} {vs : List JSNum} {M : Matrix}
    (h : Matrix.construct r c vs = .ok M) :
    M.ySize = r ∧ M.xSize = c ∧ M.values = vs := by
  unfold Matrix.construct at h
  split at h
  · exact absurd h (by simp)
  · split at h
    · exact absurd h (by simp)
    · cases h; exact ⟨rfl, rfl, rfl⟩

theorem Matrix.minor_ok_parts {m : Matrix} {y x : ℕ} {mm : Matrix}
    (h : m.minor y x = .ok mm) :
    mm.ySize = m.ySize - 1 ∧ mm.xSize = m.xSize - 1 :=
  ⟨(Matrix.construct_ok_parts h).1, (Matrix.construct_ok_parts h).2.1⟩

theorem num_list_eq4 {a1 a2 a3 a4 b1 b2 b3 b4 : ℚ} (h1 : a1 = b1) (h2 : a2 = b2)
    (h3 : a3 = b3) (h4 : a4 = b4) :
    [JSNum.num a1, JSNum.num a2, JSNum.num a3, JSNum.num a4] =
      [JSNum.num b1, JSNum.num b2, JSNum.num b3, JSNum.num b4] := by
  rw [h1, h2, h3, h4]

theorem num_list_eq9 {a1 a2 a3 a4 a5 a6 a7 a8 a9 b1 b2 b3 b4 b5 b6 b7 b8 b9 : ℚ}
    (h1 : a1 = b1) (h2 : a2 = b2) (h3 : a3 = b3) (h4 : a4 = b4) (h5 : a5 = b5)
    (h6 : a6 = b6) (h7 : a7 = b7) (h8 : a8 = b8) (h9 : a9 = b9) :
    [JSNum.num a1, JSNum.num a2, JSNum.num a3, JSNum.num a4, JSNum.num a5,
      JSNum.num a6, JSNum.num a7, JSNum.num a8, JSNum.num a9] =
    [JSNum.num b1, JSNum.num b2, JSNum.num b3, JSNum.num b4, JSNum.num b5,
      JSNum.num b6, JSNum.num b7, JSNum.num b8, JSNum.num b9] := by
  rw [h1, h2, h3, h4, h5, h6, h7, h8, h9]

theorem getD_map_range {α : Type} (n i : ℕ) (f : ℕ → α) (d : α) (h : i < n) :
    ((List.range n).map f).getD i d = f i := by
  simp [List.getD, List.getElem?_map, List.getElem?_range, h]

theorem exMapM_ok_forall2 {α β : Type} {f : α → Except MErr β}
    {l : List α} {r : List β} (h : exMapM f l = .ok r) :
    List.Forall₂ (fun a b => f a = .ok b) l r := by
  induction l generalizing r with
  | nil =>
    simp only [exMapM] at h
    cases h
    exact List.Forall₂.nil
  | cons a l ih =>
    simp only [exMapM] at h
    cases hfa : f a with
    | error e => rw [hfa] at h; exact absurd h (by simp)
    | ok b =>
      rw [hfa] at h
      cases hrest : exMapM f l with
      | error e => rw [hrest] at h; exact absurd h (by simp)
      | ok bs =>
        rw [hrest] at h
        cases h
        exact List.Forall₂.cons hfa (ih hrest)

theorem exFoldl_congr {f g : JSNum → ℕ → Except MErr JSNum}
    {l : List ℕ} (h : ∀ x ∈ l, ∀ acc, f acc x = g acc x) :
    ∀ acc, exFoldl f acc l = exFoldl g acc l := by
  induction l with
  | nil => intro acc; rfl
  | cons a l ih =>
    intro acc
    simp only [exFoldl]
    rw [h a (by simp) acc]
    cases g acc a with
    | error e => rfl
    | ok acc2 => exact ih (fun x hx acc => h x (by simp [hx]) acc) acc2

theorem Matrix.getD_eq_get {m : Matrix} {i : ℕ} (h : i < m.values.length) :
    m.values.getD i .nan = m.values.get ⟨i, h⟩ := by
  simp [List.getD_eq_getElem?_getD, List.getElem?_eq_getElem h]

theorem Matrix.eq_self_of_allNum (a : Matrix) (h : a.allNum = true) : a.eq a = true := by
  unfold Matrix.eq
  rw [if_neg (by simp)]
  rw [List.all_eq_true]
  intro x hx
  have hxlen : x < a.values.length := List.mem_range.mp hx
  rw [Matrix.getD_eq_get hxlen]
  have hv := List.all_eq_true.mp h _ (List.get_mem a.values x hxlen)
  cases hget : a.values.get ⟨x, hxlen⟩ with
  | num q => simp [JSNum.steq]
  | nan => rw [hget] at hv; exact absurd hv (by simp [JSNum.isNum])

theorem identity_allNum (n : ℕ) : (Matrix.identity n).allNum = true := by
  unfold Matrix.allNum Matrix.identity
  rw [List.all_eq_true]
  intro v hv
  simp only [List.mem_map] at hv
  obtain ⟨i, _, rfl⟩ := hv
  split <;> rfl

theorem Matrix.eq_false_of_entry (a b : Matrix) (i : ℕ) (hi : i < a.values.length)
    (h : JSNum.steq (a.values.getD i .nan) (b.values.getD i .nan) = false) :
    a.eq b = false := by
  unfold Matrix.eq
  split
  · rfl
  · rw [List.all_eq_false]
    exact ⟨i, List.mem_range.mpr hi, by simpa using h⟩

theorem flat_lt {x X c Y : ℕ} (hx : x < X) (hc : c < Y) : x * Y + c < X * Y := by
  calc x * Y + c < x * Y + Y := by omega
  _ = (x + 1) * Y := by ring
  _ ≤ X * Y := Nat.mul_le_mul_right Y hx

/- ------------------------------------------------------------------ -/
/- Claim theorems.                                                     -/
/- ------------------------------------------------------------------ -/

/-- C1 (counterexample): with `a = matrix(1,2)(1,2)` and
`b = matrix(1,1)(3)` the inner dimensions disagree (`a.colCount = 2`,
`b.rowCount = 1`), yet `a.multiply(b)` raises nothing and returns a
`1 × 1` result matrix — its single entry is the `NaN` produced by the
out-of-range read `b.get(1, 0)`. -/
theorem C1_mismatched_multiply_returns :
    mA12.xSize ≠ mB11.ySize ∧ (mA12.multiplyMat mB11).ySize = 1 ∧
      (mA12.multiplyMat mB11).xSize = 1 ∧ (mA12.multiplyMat mB11).values = [.nan] := by
  decide

/-- C1 (amended): `multiply` with a matrix operand performs no dimension
check at all: for every pair of matrices it returns a result matrix with
`a.rowCount` rows and `b.colCount` columns, mismatched inner dimensions
merely poisoning entries with `NaN` via out-of-range reads. -/
theorem C1_multiply_no_dimension_check (a b : Matrix) :
    (a.multiplyMat b).ySize = a.ySize ∧ (a.multiplyMat b).xSize = b.xSize :=
  ⟨rfl, rfl⟩

/-- C3 (counterexample): `matrix(1,1)(5).minor(0,0)` does not fail: it
returns the degenerate `0 × 0` matrix, so `rowCount ≥ 1` is not an
invariant of produced matrices. -/
theorem C3_minor_1x1_returns_empty : m1x1.minor 0 0 = .ok ⟨0, 0, [], rfl⟩ := rfl

/-- C3 (amended): for every element value, `minor(0,0)` of the `1 × 1`
matrix holding it succeeds and returns the empty `0 × 0` matrix (the
constructor accepts zero dimensions since `0 * 0` values are expected
and zero are supplied). -/
theorem C3_minor_1x1_all (v : JSNum) :
    (⟨1, 1, [v], rfl⟩ : Matrix).minor 0 0 = .ok ⟨0, 0, [], rfl⟩ := rfl

/-- C5: the determinant of every `1 × 1` matrix `|v|` is computed as `0`
(the cofactor loop multiplies `v` by the determinant of the empty `0 × 0`
minor, which is the empty sum `0`), and consequently `inverse()` on it
always throws `NotInvertible`, whatever `v` is. -/
theorem C5_det_1x1_zero_inverse_fails (v : ℚ) :
    (⟨1, 1, [.num v], rfl⟩ : Matrix).determinant = .ok (.num 0) ∧
      (⟨1, 1, [.num v], rfl⟩ : Matrix).inverse = .error .notInvertible := by
  have hdet : (⟨1, 1, [.num v], rfl⟩ : Matrix).determinant = .ok (.num 0) := by
    refine congrArg (fun q => (Except.ok (JSNum.num q) : Except MErr JSNum)) ?_
    ring
  refine ⟨hdet, ?_⟩
  simp [Matrix.inverse, hdet, JSNum.steq]

/-- C8: `determinant()` on every non-square matrix fails with the
`NotSquare` error: the guard `xSize !== ySize` throws before anything is
computed. -/
theorem C8_determinant_not_square (m : Matrix) (h : m.ySize ≠ m.xSize) :
    m.determinant = .error .notSquare := by
  unfold Matrix.determinant detGo
  rw [if_pos (fun hc => h hc.symm)]

/-- C8 witness at `matrix(3,2)(1,2,3,4,5,6)`. -/
theorem C8_witness :
    m32.ySize ≠ m32.xSize ∧ m32.determinant = .error .notSquare :=
  ⟨by decide, C8_determinant_not_square m32 (by decide)⟩

/-- C4: the adjugate of every `2 × 2` matrix is the all-zero `2 × 2`
matrix — each entry is `det(minor) * (-1)^ix` for a `1 × 1` minor of the
transpose, and the recursive determinant of a `1 × 1` matrix is `0` —
and hence the inverse of every `2 × 2` matrix with nonzero determinant
`ad - bc` is also the all-zero matrix. -/
theorem C4_adjugate_2x2_zero (a b c d : ℚ) :
    (⟨2, 2, [.num a, .num b, .num c, .num d], rfl⟩ : Matrix).adjugate = .ok adjZ2 ∧
    (a * d - b * c ≠ 0 →
      (⟨2, 2, [.num a, .num b, .num c, .num d], rfl⟩ : Matrix).inverse = .ok adjZ2) := by
  have hadj : (⟨2, 2, [.num a, .num b, .num c, .num d], rfl⟩ : Matrix).adjugate =
      .ok ⟨2, 2, [.num 0, .num 0, .num 0, .num 0], rfl⟩ := by
    refine congrArg Except.ok ?_
    refine Matrix.eq_of_parts _ ⟨2, 2, [.num 0, .num 0, .num 0, .num 0], rfl⟩ rfl rfl
      (num_list_eq4 ?_ ?_ ?_ ?_) <;> ring
  have hdet : (⟨2, 2, [.num a, .num b, .num c, .num d], rfl⟩ : Matrix).determinant =
      .ok (.num (a * d - b * c)) := by
    refine congrArg (fun q => (Except.ok (JSNum.num q) : Except MErr JSNum)) ?_
    ring
  refine ⟨hadj, fun hD => ?_⟩
  simp only [Matrix.inverse, hdet, hadj, JSNum.steq_num_num, decide_eq_true_eq,
    if_neg hD, Matrix.map, List.map, JSNum.num_div_num]
  simp [adjZ2]

/-- C4 witness at `matrix(2,2)(1,2,3,4)` (determinant `-2 ≠ 0`). -/
theorem C4_witness :
    (1 : ℚ) * 4 - 2 * 3 ≠ 0 ∧ m2x2.adjugate = .ok adjZ2 ∧ m2x2.inverse = .ok adjZ2 :=
  ⟨by norm_num, (C4_adjugate_2x2_zero 1 2 3 4).1,
    (C4_adjugate_2x2_zero 1 2 3 4).2 (by norm_num)⟩

/-- C9: `rotate()` swaps the dimensions (result is
`colCount × rowCount`); the entry of the result at row `x`, column `c`
is the source entry at row `rowCount - 1 - c`, column `x` — i.e. output
column `c` counts source rows downward, a clockwise 90° rotation — and
`matrix(3,2)(1,2,3,4,5,6).rotate()` equals `matrix(2,3)(5,3,1,6,4,2)`. -/
theorem C9_rotate :
    (∀ m : Matrix, (m.rotate).ySize = m.xSize ∧ (m.rotate).xSize = m.ySize) ∧
    (∀ (m : Matrix) (x c : ℕ), x < m.xSize → c < m.ySize →
        (m.rotate).get x c = m.get (m.ySize - 1 - c) x) ∧
    m32.rotate = m23rot := by
  refine ⟨fun m => ⟨rfl, rfl⟩, ?_, by decide⟩
  intro m x c hx hc
  simp only [Matrix.rotate, Matrix.get]
  rw [getD_map_range _ _ _ _ (flat_lt hx hc)]
  have h1 : (x * m.ySize + c) % m.ySize = c := by
    rw [Nat.mul_comm, Nat.mul_add_mod]
    exact Nat.mod_eq_of_lt hc
  have h2 : (x * m.ySize + c) / m.ySize = x := by
    rw [Nat.mul_comm, Nat.mul_add_div (Nat.pos_of_ne_zero (by omega))]
    simp [Nat.div_eq_of_lt hc]
  rw [h1, h2]

/-- C7: on square matrices of size at least 2, `determinant()` is the
direct formula `ad - bc` when the size is exactly 2, and otherwise the
first-row cofactor expansion `sum over x of element(0,x) *
minor(0,x).determinant() * (-1)^x` (stated against `detSpecSum`, a
transcription of the spec's sentence); and the spec's example
`matrix(3,3)(1,5,3,2,4,7,4,6,2).determinant()` is `74`. -/
theorem C7_determinant_formula :
    (∀ m : Matrix, m.ySize = m.xSize → 2 ≤ m.ySize →
      (m.ySize = 2 →
        m.determinant = .ok (m.get 0 0 * m.get 1 1 - m.get 0 1 * m.get 1 0)) ∧
      (m.ySize ≠ 2 → m.determinant = m.detSpecSum)) ∧
    mDet74.determinant = .ok (.num 74) := by
  constructor
  · intro m hsq h2
    constructor
    · intro h2eq
      unfold Matrix.determinant detGo
      rw [if_neg (show ¬m.xSize ≠ m.ySize by omega),
        if_pos (show m.xSize = 2 ∧ m.ySize = 2 by omega)]
    · intro hne
      obtain ⟨j, hj⟩ : ∃ j, m.ySize = j + 1 := ⟨m.ySize - 1, by omega⟩
      unfold Matrix.determinant Matrix.detSpecSum
      rw [hj]
      unfold detGo
      rw [if_neg (show ¬m.xSize ≠ m.ySize by omega),
        if_neg (show ¬(m.xSize = 2 ∧ m.ySize = 2) by omega)]
      refine exFoldl_congr ?_ (JSNum.num 0)
      intro x hx acc
      cases hmm : m.minor 0 x with
      | error e => rfl
      | ok mm =>
        have hdims := Matrix.minor_ok_parts hmm
        have hj2 : mm.ySize = j := by omega
        show (match detGo j mm with
          | Except.error e => Except.error e
          | Except.ok d =>
            Except.ok (acc + m.values.getD x JSNum.nan * d * JSNum.powNegOne x)) =
          (match mm.determinant with
          | Except.error e => Except.error e
          | Except.ok d =>
            Except.ok (acc + m.values.getD x JSNum.nan * d * JSNum.powNegOne x))
        unfold Matrix.determinant
        rw [hj2]
  · refine congrArg (fun q => (Except.ok (JSNum.num q) : Except MErr JSNum)) ?_
    norm_num

/-- C7 witness: the cofactor-expansion branch applied at the spec's
`3 × 3` determinant example. -/
theorem C7_witness :
    mDet74.ySize = mDet74.xSize ∧ 2 ≤ mDet74.ySize ∧ mDet74.ySize ≠ 2 ∧
      mDet74.determinant = mDet74.detSpecSum :=
  ⟨by decide, by decide, by decide,
    (C7_determinant_formula.1 mDet74 (by decide) (by decide)).2 (by decide)⟩

/-- C9 witness: the index property applied at the rotate example,
output position `(0, 0)` (source row `3 - 1 - 0 = 2`, column `0`). -/
theorem C9_witness :
    0 < m32.xSize ∧ 0 < m32.ySize ∧
      (m32.rotate).get 0 0 = m32.get (m32.ySize - 1 - 0) 0 :=
  ⟨by decide, by decide, C9_rotate.2.1 m32 0 0 (by decide) (by decide)⟩

/-- C2 (counterexample): `matrix(2,2)(1,2,3,4)` has determinant `-2 ≠ 0`
(so it is invertible in the claim's sense), `inverse()` succeeds and
returns the all-zero matrix, and the round trip
`inverse().multiply(m).eq(identity(2))` is `false`. -/
theorem C2_roundtrip_fails_2x2 :
    m2x2.determinant = .ok (.num (-2)) ∧
    m2x2.inverse = .ok adjZ2 ∧
    (adjZ2.multiplyMat m2x2).eq (Matrix.identity 2) = false := by
  have hdet : m2x2.determinant = .ok (.num (-2)) := by
    refine congrArg (fun q => (Except.ok (JSNum.num q) : Except MErr JSNum)) ?_
    norm_num
  have hadj : m2x2.adjugate = .ok adjZ2 := by
    refine congrArg Except.ok ?_
    refine Matrix.eq_of_parts _ adjZ2 rfl rfl (num_list_eq4 ?_ ?_ ?_ ?_) <;> norm_num
  have hinv : m2x2.inverse = .ok adjZ2 := by
    simp only [Matrix.inverse, hdet, hadj, JSNum.steq_num_num,
      if_neg (show ¬((-2 : ℚ) = 0) by norm_num)]
    refine congrArg Except.ok ?_
    refine Matrix.eq_of_parts _ adjZ2 rfl rfl ?_
    simp [adjZ2, Matrix.map]
  refine ⟨hdet, hinv, ?_⟩
  have hp0 : (adjZ2.multiplyMat m2x2).values.getD 0 .nan = .num 0 := by
    refine congrArg JSNum.num ?_
    norm_num
  have hI0 : (Matrix.identity 2).values.getD 0 .nan = .num 1 := rfl
  refine Matrix.eq_false_of_entry _ _ 0 (by decide) ?_
  rw [hp0, hI0]
  simp only [JSNum.steq_num_num, decide_eq_false_iff_not]
  norm_num


/-- C2 (amended): for every `3 × 3` matrix of numeric entries whose
determinant is nonzero, `inverse()` succeeds and
`inverse().multiply(m).eq(identity(3))` is `true` (idealizing the
source's `Float32` arithmetic as exact rationals). -/
theorem C2_inverse_roundtrip_3x3 (a b c d e f g h i dv : ℚ)
    (hdet : (⟨3, 3, [.num a, .num b, .num c, .num d, .num e, .num f, .num g, .num h, .num i],
        rfl⟩ : Matrix).determinant = .ok (.num dv))
    (hdv : dv ≠ 0) :
    ∃ Mi, (⟨3, 3, [.num a, .num b, .num c, .num d, .num e, .num f, .num g, .num h, .num i],
        rfl⟩ : Matrix).inverse = .ok Mi ∧
      (Mi.multiplyMat ⟨3, 3, [.num a, .num b, .num c, .num d, .num e, .num f, .num g, .num h,
        .num i], rfl⟩).eq (Matrix.identity 3) = true := by
  have hD : (⟨3, 3, [.num a, .num b, .num c, .num d, .num e, .num f, .num g, .num h, .num i],
      rfl⟩ : Matrix).determinant =
      .ok (.num (a * (e * i - f * h) - b * (d * i - f * g) + c * (d * h - e * g))) := by
    refine congrArg (fun q => (Except.ok (JSNum.num q) : Except MErr JSNum)) ?_
    ring
  rw [hD] at hdet
  have hdd : a * (e * i - f * h) - b * (d * i - f * g) + c * (d * h - e * g) = dv := by
    simpa using hdet
  subst hdd
  have hadj : (⟨3, 3, [.num a, .num b, .num c, .num d, .num e, .num f, .num g, .num h, .num i],
      rfl⟩ : Matrix).adjugate =
      .ok ⟨3, 3, [.num (e * i - h * f), .num (-(b * i - h * c)), .num (b * f - e * c),
        .num (-(d * i - g * f)), .num (a * i - g * c), .num (-(a * f - d * c)),
        .num (d * h - g * e), .num (-(a * h - g * b)), .num (a * e - d * b)], rfl⟩ := by
    refine congrArg Except.ok ?_
    refine Matrix.eq_of_parts _ ⟨3, 3, [.num (e * i - h * f), .num (-(b * i - h * c)),
      .num (b * f - e * c), .num (-(d * i - g * f)), .num (a * i - g * c),
      .num (-(a * f - d * c)), .num (d * h - g * e), .num (-(a * h - g * b)),
      .num (a * e - d * b)], rfl⟩ rfl rfl (num_list_eq9 ?_ ?_ ?_ ?_ ?_ ?_ ?_ ?_ ?_) <;> ring
  have hinv : (⟨3, 3, [.num a, .num b, .num c, .num d, .num e, .num f, .num g, .num h, .num i],
      rfl⟩ : Matrix).inverse =
      .ok ⟨3, 3, [
        .num ((e * i - h * f) / (a * (e * i - f * h) - b * (d * i - f * g) + c * (d * h - e * g))),
        .num (-(b * i - h * c) / (a * (e * i - f * h) - b * (d * i - f * g) + c * (d * h - e * g))),
        .num ((b * f - e * c) / (a * (e * i - f * h) - b * (d * i - f * g) + c * (d * h - e * g))),
        .num (-(d * i - g * f) / (a * (e * i - f * h) - b * (d * i - f * g) + c * (d * h - e * g))),
        .num ((a * i - g * c) / (a * (e * i - f * h) - b * (d * i - f * g) + c * (d * h - e * g))),
        .num (-(a * f - d * c) / (a * (e * i - f * h) - b * (d * i - f * g) + c * (d * h - e * g))),
        .num ((d * h - g * e) / (a * (e * i - f * h) - b * (d * i - f * g) + c * (d * h - e * g))),
        .num (-(a * h - g * b) / (a * (e * i - f * h) - b * (d * i - f * g) + c * (d * h - e * g))),
        .num ((a * e - d * b) / (a * (e * i - f * h) - b * (d * i - f * g) + c * (d * h - e * g)))],
        rfl⟩ := by
    simp only [Matrix.inverse, hD, hadj, JSNum.steq_num_num, decide_eq_true_eq, if_neg hdv]
    refine congrArg Except.ok ?_
    refine Matrix.eq_of_parts _ _ rfl rfl ?_
    simp only [Matrix.map, List.map, JSNum.num_div_num, if_neg hdv]
  refine ⟨_, hinv, ?_⟩
  have hprod : ((⟨3, 3, [
        .num ((e * i - h * f) / (a * (e * i - f * h) - b * (d * i - f * g) + c * (d * h - e * g))),
        .num (-(b * i - h * c) / (a * (e * i - f * h) - b * (d * i - f * g) + c * (d * h - e * g))),
        .num ((b * f - e * c) / (a * (e * i - f * h) - b * (d * i - f * g) + c * (d * h - e * g))),
        .num (-(d * i - g * f) / (a * (e * i - f * h) - b * (d * i - f * g) + c * (d * h - e * g))),
        .num ((a * i - g * c) / (a * (e * i - f * h) - b * (d * i - f * g) + c * (d * h - e * g))),
        .num (-(a * f - d * c) / (a * (e * i - f * h) - b * (d * i - f * g) + c * (d * h - e * g))),
        .num ((d * h - g * e) / (a * (e * i - f * h) - b * (d * i - f * g) + c * (d * h - e * g))),
        .num (-(a * h - g * b) / (a * (e * i - f * h) - b * (d * i - f * g) + c * (d * h - e * g))),
        .num ((a * e - d * b) / (a * (e * i - f * h) - b * (d * i - f * g) + c * (d * h - e * g)))],
        rfl⟩ : Matrix).multiplyMat
      ⟨3, 3, [.num a, .num b, .num c, .num d, .num e, .num f, .num g, .num h, .num i], rfl⟩) =
      Matrix.identity 3 := by
    refine Matrix.eq_of_parts _ (Matrix.identity 3) rfl rfl
      (num_list_eq9 ?_ ?_ ?_ ?_ ?_ ?_ ?_ ?_ ?_) <;>
      · field_simp
        ring
  rw [hprod]
  exact Matrix.eq_self_of_allNum _ (identity_allNum 3)


/-- C2 witness: the amended round trip applied at the spec's invertible
example `matrix(3,3)(1,2,3,0,1,4,5,6,0)` (determinant `1`). -/
theorem C2_witness :
    ∃ Mi, (⟨3, 3, [.num 1, .num 2, .num 3, .num 0, .num 1, .num 4, .num 5, .num 6, .num 0],
        rfl⟩ : Matrix).inverse = .ok Mi ∧
      (Mi.multiplyMat ⟨3, 3, [.num 1, .num 2, .num 3, .num 0, .num 1, .num 4, .num 5, .num 6,
        .num 0], rfl⟩).eq (Matrix.identity 3) = true :=
  C2_inverse_roundtrip_3x3 1 2 3 0 1 4 5 6 0 1
    (by refine congrArg (fun q => (Except.ok (JSNum.num q) : Except MErr JSNum)) ?_
        norm_num)
    (by norm_num)

theorem forall2_getD {α β : Type} {R : α → β → Prop} {l : List α} {r : List β}
    (h : List.Forall₂ R l r) (i : ℕ) (hi : i < l.length) (d1 : α) (d2 : β) :
    R (l.getD i d1) (r.getD i d2) := by
  induction h generalizing i with
  | nil => simp at hi
  | cons hR hrest ih =>
    cases i with
    | zero => simpa using hR
    | succ n =>
      have hn : n < _ := Nat.lt_of_succ_lt_succ (by simpa using hi)
      simpa using ih n hn

theorem getD_range {n i : ℕ} (h : i < n) (d : ℕ) : (List.range n).getD i d = i := by
  simp [List.getD_eq_getElem?_getD, List.getElem?_range h]

theorem getD_enum {α : Type} {l : List α} {i : ℕ} (h : i < l.length) (d : ℕ × α) (d2 : α) :
    l.enum.getD i d = (i, l.getD i d2) := by
  have hl : i < l.enum.length := by simpa using h
  rw [List.getD_eq_getElem?_getD, List.getElem?_eq_getElem hl]
  have := List.getElem_enumFrom l 0 i hl
  simp only [List.enum] at this ⊢
  rw [this]
  simp [List.getD_eq_getElem?_getD, List.getElem?_eq_getElem h]

/-- C6: whenever `adjugate()` succeeds, the result has the receiver's
shape and its flat entry at index `ix` is
`transpose().minor(ix / t.colCount, ix % t.colCount).determinant()`
multiplied by `(-1) ^ ix` — the transpose's minors in row-major order,
each determinant signed by the minor's flattened index in that sequence
(not by a per-(row, col) checkerboard). -/
theorem C6_adjugate_formula (m A : Matrix) (hA : m.adjugate = .ok A) :
    A.ySize = m.ySize ∧ A.xSize = m.xSize ∧
    ∀ ix, ix < m.xSize * m.ySize →
      ∃ mm d, m.transpose.minor (ix / m.ySize) (ix % m.ySize) = .ok mm ∧
        mm.determinant = .ok d ∧
        A.values.getD ix .nan = d * JSNum.powNegOne ix := by
  unfold Matrix.adjugate at hA
  cases hms : m.transpose.minors with
  | error e => rw [hms] at hA; exact absurd hA (by simp)
  | ok ms =>
  rw [hms] at hA
  have hA2 : (match exMapM
      (fun p =>
        match p.2.determinant with
        | .error e => .error e
        | .ok d => .ok (d * JSNum.powNegOne p.1)) ms.enum with
    | .error e => (.error e : Except MErr Matrix)
    | .ok vals => Matrix.construct m.ySize m.xSize vals) = .ok A := hA
  cases hvals : exMapM
      (fun p =>
        match p.2.determinant with
        | .error e => .error e
        | .ok d => .ok (d * JSNum.powNegOne p.1)) ms.enum with
  | error e => rw [hvals] at hA2; exact absurd hA2 (by simp)
  | ok vals =>
  rw [hvals] at hA2
  obtain ⟨hAy, hAx, hAv⟩ := Matrix.construct_ok_parts hA2
  refine ⟨hAy, hAx, ?_⟩
  intro ix hix
  have hms' : exMapM (fun i => m.transpose.minor (i / m.ySize) (i % m.ySize))
      (List.range (m.xSize * m.ySize)) = .ok ms := hms
  have hf1 := exMapM_ok_forall2 hms'
  have hlen1 : ms.length = m.xSize * m.ySize := by
    have := List.Forall₂.length_eq hf1
    simpa using this.symm
  have h1 := forall2_getD hf1 ix (by simpa using hix) 0 A
  rw [getD_range hix] at h1
  have hf2 := exMapM_ok_forall2 hvals
  have h2 := forall2_getD hf2 ix (by simp [hlen1, hix]) (0, A) JSNum.nan
  rw [getD_enum (by omega : ix < ms.length) (0, A) A] at h2
  cases hd : (ms.getD ix A).determinant with
  | error e =>
    rw [show ((ix, ms.getD ix A) : ℕ × Matrix).2 = ms.getD ix A from rfl] at h2
    rw [hd] at h2
    exact absurd h2 (by simp)
  | ok d =>
    rw [show ((ix, ms.getD ix A) : ℕ × Matrix).2 = ms.getD ix A from rfl] at h2
    rw [hd] at h2
    refine ⟨ms.getD ix A, d, h1, hd, ?_⟩
    rw [hAv]
    injection h2 with h2
    exact h2.symm

/-- C6 witness: the formula applied at `matrix(2,2)(1,2,3,4)` and flat
index `0`. -/
theorem C6_witness :
    m2x2.adjugate = .ok adjZ2 ∧
    (∃ mm d, m2x2.transpose.minor 0 0 = .ok mm ∧ mm.determinant = .ok d ∧
      adjZ2.values.getD 0 .nan = d * JSNum.powNegOne 0) := by
  have hadj : m2x2.adjugate = .ok adjZ2 := by
    refine congrArg Except.ok ?_
    refine Matrix.eq_of_parts _ adjZ2 rfl rfl (num_list_eq4 ?_ ?_ ?_ ?_) <;> norm_num
  exact ⟨hadj, (C6_adjugate_formula m2x2 adjZ2 hadj).2.2 0 (by decide)⟩

theorem flat_mod {y x n : ℕ} (hx : x < n) : (y * n + x) % n = x := by
  rw [Nat.mul_comm, Nat.mul_add_mod]
  exact Nat.mod_eq_of_lt hx

theorem flat_div {y x n : ℕ} (hx : x < n) : (y * n + x) / n = y := by
  rw [Nat.mul_comm, Nat.mul_add_div (by omega)]
  simp [Nat.div_eq_of_lt hx]

theorem getD_map_in {α β : Type} (f : α → β) (l : List α) (i : ℕ) (h : i < l.length)
    (d : β) (d2 : α) : (l.map f).getD i d = f (l.getD i d2) := by
  simp [List.getD_eq_getElem?_getD, List.getElem?_map, List.getElem?_eq_getElem h]

theorem foldl_num_sum (g : ℕ → ℚ) (l : List ℕ) (q0 : ℚ) :
    l.foldl (fun acc z => acc + JSNum.num (g z)) (JSNum.num q0) =
      JSNum.num (l.foldl (fun acc z => acc + g z) q0) := by
  induction l generalizing q0 with
  | nil => rfl
  | cons a l ih =>
    simp only [List.foldl_cons, JSNum.num_add_num]
    exact ih (q0 + g a)

theorem qfold_zero (g : ℕ → ℚ) (l : List ℕ) (acc : ℚ) (h : ∀ z ∈ l, g z = 0) :
    l.foldl (fun acc z => acc + g z) acc = acc := by
  induction l generalizing acc with
  | nil => rfl
  | cons a l ih =>
    simp only [List.foldl_cons]
    rw [h a (by simp), add_zero]
    exact ih acc (fun z hz => h z (by simp [hz]))

theorem qfold_delta (g : ℕ → ℚ) (x n : ℕ) (hx : x < n)
    (h0 : ∀ z, z < n → z ≠ x → g z = 0) (acc : ℚ) :
    (List.range n).foldl (fun acc z => acc + g z) acc = acc + g x := by
  induction n generalizing acc with
  | zero => omega
  | succ n ih =>
    rw [List.range_succ, List.foldl_append]
    rcases Nat.lt_or_ge x n with hlt | hge
    · rw [ih hlt (fun z hz hne => h0 z (by omega) hne) acc]
      simp only [List.foldl_cons, List.foldl_nil]
      rw [h0 n (by omega) (by omega), add_zero]
    · have hxn : x = n := by omega
      subst hxn
      rw [qfold_zero g _ acc (fun z hz => by
        have hz' := List.mem_range.mp hz
        exact h0 z (by omega) (by omega))]
      simp only [List.foldl_cons, List.foldl_nil]

theorem multiplyMat_get (a b : Matrix) (y x : ℕ) (hy : y < a.ySize) (hx : x < b.xSize) :
    (a.multiplyMat b).get y x =
      (List.range a.xSize).foldl (fun acc z => acc + a.get y z * b.get z x) (JSNum.num 0) := by
  show ((List.range (a.ySize * b.xSize)).map
      (fun i => (List.range a.xSize).foldl
        (fun acc z => acc + a.get (i / b.xSize) z * b.get z (i % b.xSize))
        (JSNum.num 0))).getD (y * b.xSize + x) .nan = _
  rw [getD_map_range _ _ _ _ (flat_lt hy hx)]
  simp only [flat_mod hx, flat_div hx]

/-- C10: multiplying by a scalar `s` keeps the receiver's dimensions and
scales every entry by `s`; and it is by definition the matrix product
with `identity(colCount)` scaled by `s` (that is exactly how the source
builds the operand). -/
theorem C10_scalar_multiply (m : Matrix) (s : ℚ) (hn : m.allNum = true) :
    (m.multiplyScalar (.num s)).ySize = m.ySize ∧
    (m.multiplyScalar (.num s)).xSize = m.xSize ∧
    (∀ y x, y < m.ySize → x < m.xSize →
      (m.multiplyScalar (.num s)).get y x = m.get y x * .num s) ∧
    m.multiplyScalar (.num s) =
      m.multiplyMat ((Matrix.identity m.xSize).map (fun v => v * .num s)) := by
  refine ⟨rfl, rfl, ?_, rfl⟩
  intro y x hy hx
  have hgetq : ∀ z, z < m.xSize → ∃ q, m.get y z = JSNum.num q := by
    intro z hz
    have hlen : y * m.xSize + z < m.values.length := by
      rw [m.hval]; exact flat_lt hy hz
    have hmem : m.values.getD (y * m.xSize + z) .nan ∈ m.values := by
      rw [Matrix.getD_eq_get hlen]; exact List.get_mem _ _ _
    have hall := List.all_eq_true.mp hn _ hmem
    unfold Matrix.get
    cases hv : m.values.getD (y * m.xSize + z) .nan with
    | num q => exact ⟨q, rfl⟩
    | nan => rw [hv] at hall; exact absurd hall (by simp [JSNum.isNum])
  choose qf hqf using hgetq
  have hBget : ∀ z, z < m.xSize →
      ((Matrix.identity m.xSize).map (fun v => v * JSNum.num s)).get z x =
        JSNum.num ((if x = z then 1 else 0) * s) := by
    intro z hz
    show ((Matrix.identity m.xSize).values.map (fun v => v * JSNum.num s)).getD
        (z * m.xSize + x) .nan = _
    rw [getD_map_in _ _ _ (by
      rw [(Matrix.identity m.xSize).hval]; exact flat_lt hz hx) _ JSNum.nan]
    rw [show (Matrix.identity m.xSize).values = (List.range (m.xSize * m.xSize)).map
      (fun i => if i % m.xSize = i / m.xSize then JSNum.num 1 else JSNum.num 0) from rfl]
    rw [getD_map_range _ _ _ _ (flat_lt hz hx)]
    rw [flat_mod hx, flat_div hx]
    by_cases hxz : x = z
    · rw [if_pos hxz, if_pos hxz]
      simp
    · rw [if_neg hxz, if_neg hxz]
      simp
  unfold Matrix.multiplyScalar
  rw [multiplyMat_get m ((Matrix.identity m.xSize).map (fun v => v * JSNum.num s)) y x hy
    (show x < m.xSize from hx)]
  rw [List.foldl_ext _ (fun acc z => acc + JSNum.num ((if h : z < m.xSize then qf z h else 0) *
    ((if x = z then 1 else 0) * s))) (JSNum.num 0) ?hext]
  case hext =>
    intro acc z hz
    have hz' : z < m.xSize := List.mem_range.mp hz
    rw [hBget z hz', hqf z hz', JSNum.num_mul_num]
    simp only [dif_pos hz']
  rw [foldl_num_sum]
  rw [hqf x hx, JSNum.num_mul_num]
  refine congrArg JSNum.num ?_
  rw [qfold_delta _ x m.xSize hx (fun z hz hne => by
    rw [if_neg (fun h => hne h.symm)]
    ring) 0]
  rw [dif_pos hx, if_pos rfl]
  ring

/-- C10 witness at `matrix(3,2)(1,2,3,4,5,6)` with scalar `2`, entry
`(0, 0)`. -/
theorem C10_witness :
    m32.allNum = true ∧ (m32.multiplyScalar (.num 2)).ySize = m32.ySize ∧
      (m32.multiplyScalar (.num 2)).get 0 0 = m32.get 0 0 * .num 2 :=
  ⟨by decide, (C10_scalar_multiply m32 2 (by decide)).1,
    (C10_scalar_multiply m32 2 (by decide)).2.2.1 0 0 (by decide) (by decide)⟩

end MatrixJS
